import Mathlib

/-!
# chomp_generator: the trajectory-avoidance cost function

A shallow embedding of `include/chomp_generator/trajectory_avoidance.h`
(class `stomp_moveit::cost_functions::TrajectoryAvoidance`) and a verification
of the statements its specification makes about it.

The only member function with arithmetic is

    double compute_cost(double distance) {
      return std::min(1.0 / distance, 1000.0);
    }

so the development starts with a model of IEEE-754 binary64 (`double`):
correctly rounded division (round to nearest, ties to even, with subnormals,
overflow to infinity, signed zero and NaN), the comparison `<` and `std::min`.
Expressions of type `double` are taken to be evaluated in binary64, in the
default rounding mode, with division by zero giving an infinity (no trap).

The file has four parts: the model of `double` and of the class; the order and
accuracy of the rounding (`roundUnits_mono`, `roundUnits_nearest`,
`div_isBinary64`); the cost as a function of the distance; the claims `C1`
to `C10` of the specification. The header declares `computeCosts` and
`add_trajectory` without a body; they are modelled from the specification.
-/

/-! ## IEEE-754 binary64 -/

/-- A value of the C++ type `double` (IEEE-754 binary64).

Every finite binary64 number is an integer multiple of `2^-1074`, the smallest
subnormal. `fin neg k` is the number of magnitude `k * 2^-1074` with sign bit
`neg`; so `1.0` is `fin false (2^1074)` and the largest finite double is
`fin false ((2^53 - 1) * 2^2045)`. `inf neg` is the infinity of that sign and
`nan` stands for every NaN. -/
inductive Double where
  | nan
  | inf (neg : Bool)
  | fin (neg : Bool) (k : Nat)
deriving DecidableEq

namespace Double

/-- The number of units of `2^-1074` in `1.0`. -/
@[irreducible] def oneUnits : Nat := 2 ^ 1074

/-- The magnitude `2^1024` in units of `2^-1074`: the first one too large for a
finite double. -/
@[irreducible] def overflowUnits : Nat := 2 ^ 2098

/-- The units of the double `0.001`, which is `0x1.0624dd2f1a9fcp-10`. -/
@[irreducible] def milliUnits : Nat := 2 ^ 1012 * 4611686018427388

/-- The units of the double that follows `0.001`. -/
@[irreducible] def milliNextUnits : Nat := 2 ^ 1012 * 4611686018427389

/-- Worker of `log2`: `fuel` bounds the number of halvings. -/
def log2Aux : Nat → Nat → Nat
  | 0, _ => 0
  | fuel + 1, n => if n < 2 then 0 else log2Aux fuel (n / 2) + 1

/-- Position of the leading bit: `log2 n = ⌊log₂ n⌋` for `n > 0`, and `log2 0 = 0`. -/
def log2 (n : Nat) : Nat := log2Aux n n

/-- A double that the format can hold: a finite magnitude is below `2^1024`
(`overflowUnits`) and has at most 53 significant bits. -/
def IsBinary64 : Double → Prop
  | fin _ k => k < overflowUnits ∧ k % 2 ^ (log2 k - 52) = 0
  | _ => True

instance (d : Double) : Decidable (IsBinary64 d) := by
  cases d <;> unfold IsBinary64 <;> infer_instance

/-- The exponent (in units of `2^-1074`) of the last place kept when `p / q`
units are rounded to 53 significant bits: 0 in the subnormal range and in the
lowest normal binade. -/
def ulpShift (p q : Nat) : Nat := log2 (p / q) - 52

/-- The integer nearest to `p / d`, ties going to the even one. -/
def roundGrid (p d : Nat) : Nat :=
  if d < 2 * (p % d) ∨ (2 * (p % d) = d ∧ (p / d) % 2 = 1) then p / d + 1 else p / d

/-- The exact quotient `p / q`, counted in units of `2^-1074`, rounded to
nearest-even at 53 significant bits (fewer in the subnormal range); the exponent
is not bounded above here. -/
def roundUnits (p q : Nat) : Nat :=
  roundGrid p (q * 2 ^ ulpShift p q) * 2 ^ ulpShift p q

/-- A rounded magnitude as a double: magnitudes from `2^1024` on overflow to infinity. -/
def ofUnits (neg : Bool) (k : Nat) : Double :=
  if k < overflowUnits then fin neg k else inf neg

/-- The C++ operator `/` on `double`: IEEE-754 division, round to nearest even.
For finite operands of `x` and `y` units the exact quotient is
`x * oneUnits / y` units. -/
def div : Double → Double → Double
  | nan, _ => nan
  | _, nan => nan
  | inf _, inf _ => nan
  | inf a, fin b _ => inf (xor a b)
  | fin a _, inf b => fin (xor a b) 0
  | fin a x, fin b y =>
    if y = 0 then (if x = 0 then nan else inf (xor a b))
    else ofUnits (xor a b) (roundUnits (x * oneUnits) y)

/-- NaN test. -/
def isNan : Double → Bool
  | nan => true
  | _ => false

/-- Finiteness test: neither an infinity nor NaN. -/
def isFinite : Double → Bool
  | fin _ _ => true
  | _ => false

/-- Position of a non-NaN double on the number line, in units of `2^-1074`
(both zeros at 0, the infinities just beyond the finite range). -/
def rank : Double → Int
  | nan => 0
  | inf false => overflowUnits
  | inf true => -(overflowUnits : Int)
  | fin false k => k
  | fin true k => -(k : Int)

/-- The C++ operator `<` on `double`: false when an operand is NaN. -/
def lt (a b : Double) : Bool := !a.isNan && !b.isNan && decide (a.rank < b.rank)

/-- The C++ operator `<=` on `double`: false when an operand is NaN. -/
def le (a b : Double) : Bool := !a.isNan && !b.isNan && decide (a.rank ≤ b.rank)

instance : LT Double := ⟨fun a b => lt a b = true⟩

instance : LE Double := ⟨fun a b => le a b = true⟩

instance (a b : Double) : Decidable (a < b) := inferInstanceAs (Decidable (lt a b = true))

instance (a b : Double) : Decidable (a ≤ b) := inferInstanceAs (Decidable (le a b = true))

/-- The function `std::min(a, b)` on `double`: `(b < a) ? b : a`. -/
def min (a b : Double) : Double := if lt b a then b else a

/-- The double of a natural number literal such as `1.0` or `1000.0` (exact below `2^53`). -/
def ofNat (n : Nat) : Double := fin false (n * oneUnits)

/-- The double `m * 2^-e`, written with its integer significand (for `e ≤ 1074`). -/
def scaled (m e : Nat) : Double := fin false (m * 2 ^ (1074 - e))

/-- The double nearest to the fraction `a / b`: what a decimal literal such as
`0.1` (`ofRatio 1 10`) or `0.001` (`ofRatio 1 1000`) denotes. -/
def ofRatio (a b : Nat) : Double := div (ofNat a) (ofNat b)

/-- Positive zero, `0.0`. -/
def zero : Double := fin false 0

/-- Positive infinity. -/
def posInf : Double := inf false

end Double

/-! ## The class `TrajectoryAvoidance` -/

/-- The data members of `TrajectoryAvoidance`. The members whose types belong to
the host framework (`robot_model_ptr_`, `robot_state_`, `planning_scene_`,
`plan_request_`, `nh_`, `traj_sub_`) are kept together in `host`, of an
abstract type. -/
structure TrajectoryAvoidance (Host : Type) where
  name_ : String
  group_name_ : String
  collision_clearance_ : Double
  collision_penalty_ : Double
  tip_link_id_ : String
  host : Host

namespace TrajectoryAvoidance

variable {Host : Type} {Pose : Type}

/-- The member `std::string getGroupName() const`: returns `group_name_`.
A member function is embedded as a function from the object to the returned
value and the object after the call. -/
def getGroupName (self : TrajectoryAvoidance Host) : String × TrajectoryAvoidance Host :=
  (self.group_name_, self)

/-- The member `std::string getName() const`: returns `name_ + "/" + group_name_`. -/
def getName (self : TrajectoryAvoidance Host) : String × TrajectoryAvoidance Host :=
  (self.name_ ++ "/" ++ self.group_name_, self)

/-- The member `double compute_cost(double distance)`:
`return std::min(1.0 / distance, 1000.0);`. -/
def compute_cost (self : TrajectoryAvoidance Host) (distance : Double) :
    Double × TrajectoryAvoidance Host :=
  (Double.min (Double.div (Double.ofNat 1) distance) (Double.ofNat 1000), self)

/-- Modelled from the spec: the body of the static member
`add_trajectory(std::vector<Eigen::Affine3d>& trajectory)` and the definition of
the static list `accepted_trajectories` (a vector of trajectories, each a vector
of poses) are not in the header, which only declares them. The specification
says: "`add(trajectory)`: appends a Trajectory; never fails; visible to
subsequent reads." The shared list is passed in and returned. -/
def add_trajectory (accepted_trajectories : List (List Pose)) (trajectory : List Pose) :
    List (List Pose) :=
  accepted_trajectories ++ [trajectory]

/-- Modelled from the spec: step 2 of `computeCosts`, which the header only declares
(lines 74 to 80). "`distance(t)` = minimum Euclidean distance between the tip-link
position and the position of every Pose in every stored Trajectory. An empty repository
yields `distance(t) = +infinity`." The Euclidean distance of two poses is computed by the
host's geometry library and is the parameter `dist`. -/
def nearest_distance (dist : Pose → Pose → Double)
    (accepted_trajectories : List (List Pose)) (tip : Pose) : Double :=
  accepted_trajectories.foldl
    (fun best trajectory => trajectory.foldl (fun b pose => Double.min (dist tip pose) b) best)
    Double.posInf

/-- Modelled from the spec: step 3 ("cost shaping") of `computeCosts`, which the header
only declares. "If `distance(t) >= collision_clearance`, `cost(t) = 0`. Otherwise
`cost(t) = min(1 / distance(t), collision_penalty)`". The gate is the one of the
specification; under the clearance the value is the one the helper of the header,
`compute_cost`, returns. -/
def shape_cost (self : TrajectoryAvoidance Host) (distance : Double) : Double :=
  if self.collision_clearance_ ≤ distance then Double.zero
  else (compute_cost self distance).1

/-- Modelled from the spec: the member `computeCosts`, which the header only declares.
`parameters` holds one column per time step; the scored range is
`start_timestep .. start_timestep + num_timesteps`, and a range that exceeds the columns
is a usage error (no result). For each scored column the tip pose comes from the
kinematics of the host (`fk`), the distance from step 2 and the cost from step 3;
"validity is always true" in the absence of a hard-violation policy. "It performs no
mutation of instance state", so the object is returned as it was; the shared list is only
read. -/
def computeCosts {Column : Type} (fk : Column → Pose) (dist : Pose → Pose → Double)
    (self : TrajectoryAvoidance Host) (accepted_trajectories : List (List Pose))
    (parameters : List Column) (start_timestep num_timesteps : Nat)
    (_iteration_number _rollout_number : Int) :
    Option (List Double × Bool) × TrajectoryAvoidance Host :=
  if start_timestep + num_timesteps ≤ parameters.length then
    (some (((parameters.drop start_timestep).take num_timesteps).map
        (fun column => shape_cost self (nearest_distance dist accepted_trajectories (fk column))),
      true), self)
  else (none, self)

end TrajectoryAvoidance

/-! ## Configurations and distances of the scenarios -/

/-- The configuration of Scenarios B, C and D: clearance 0.5, penalty 1000. -/
def scenarioEvaluator : TrajectoryAvoidance Unit :=
  { name_ := "TrajectoryAvoidance", group_name_ := "manipulator",
    collision_clearance_ := Double.ofRatio 1 2, collision_penalty_ := Double.ofNat 1000,
    tip_link_id_ := "tool0", host := () }

/-- The same configuration with the penalty set to 500. -/
def penalty500Evaluator : TrajectoryAvoidance Unit :=
  { scenarioEvaluator with collision_penalty_ := Double.ofNat 500 }

/-! ## Rounding: order and accuracy -/

namespace Double

/-- The overflow bound is positive. -/
theorem overflowUnits_pos : 0 < overflowUnits := by
  decide!

/-- With enough fuel the worker computes the base-2 logarithm of Mathlib. -/
theorem log2Aux_eq_log (fuel : Nat) : ∀ n, n ≤ fuel → log2Aux fuel n = Nat.log 2 n := by
  induction fuel with
  | zero =>
    intro n hn
    have : n = 0 := by omega
    subst this
    simp [log2Aux]
  | succ f ih =>
    intro n hn
    unfold log2Aux
    by_cases h : n < 2
    · simp [h, Nat.log_of_lt h]
    · simp only [h, if_false]
      rw [ih (n / 2) (by omega)]
      have h2 : 2 ≤ n := by omega
      rw [Nat.log_of_one_lt_of_le (by norm_num) h2]

/-- The leading-bit position is the base-2 logarithm of Mathlib. -/
theorem log2_eq_log (n : Nat) : log2 n = Nat.log 2 n :=
  log2Aux_eq_log n n le_rfl

/-- The leading-bit position is monotone. -/
theorem log2_mono {a b : Nat} (h : a ≤ b) : log2 a ≤ log2 b := by
  rw [log2_eq_log, log2_eq_log]; exact Nat.log_mono_right h

/-- A positive number is at least the power of two of its leading bit. -/
theorem pow_log2_le {n : Nat} (h : 0 < n) : 2 ^ log2 n ≤ n := by
  rw [log2_eq_log]; exact Nat.pow_log_le_self 2 (by omega)

/-- A number is below the next power of two after its leading bit. -/
theorem lt_pow_log2_succ (n : Nat) : n < 2 ^ (log2 n + 1) := by
  rw [log2_eq_log]; exact Nat.lt_pow_succ_log_self (by norm_num) n

/-- Rounding never goes below the floor of the quotient. -/
theorem div_le_roundGrid (p d : Nat) : p / d ≤ roundGrid p d := by
  unfold roundGrid; split_ifs <;> omega

/-- Rounding never goes above the floor of the quotient plus one. -/
theorem roundGrid_le_succ (p d : Nat) : roundGrid p d ≤ p / d + 1 := by
  unfold roundGrid; split_ifs <;> omega

/-- Rounding to the nearest integer is monotone in the fraction `p / d`. -/
theorem roundGrid_mono {p1 d1 p2 d2 : Nat} (h1 : 0 < d1) (h2 : 0 < d2)
    (h : p1 * d2 ≤ p2 * d1) : roundGrid p1 d1 ≤ roundGrid p2 d2 := by
  have e1 := Nat.div_add_mod p1 d1
  have e2 := Nat.div_add_mod p2 d2
  have hr1 := Nat.mod_lt p1 h1
  have hr2 := Nat.mod_lt p2 h2
  have hn : p1 / d1 ≤ p2 / d2 := by
    rw [Nat.le_div_iff_mul_le h2]
    have : p1 / d1 * d1 ≤ p1 := Nat.div_mul_le_self p1 d1
    have : p1 / d1 * d2 * d1 ≤ p2 * d1 := by
      calc p1 / d1 * d2 * d1 = p1 / d1 * d1 * d2 := by ring
        _ ≤ p1 * d2 := Nat.mul_le_mul_right _ this
        _ ≤ p2 * d1 := h
    exact Nat.le_of_mul_le_mul_right this h1
  rcases Nat.lt_or_ge (p1 / d1) (p2 / d2) with hlt | hge
  · calc roundGrid p1 d1 ≤ p1 / d1 + 1 := roundGrid_le_succ _ _
      _ ≤ p2 / d2 := hlt
      _ ≤ roundGrid p2 d2 := div_le_roundGrid _ _
  · have hEq : p1 / d1 = p2 / d2 := le_antisymm hn hge
    have hr : p1 % d1 * d2 ≤ p2 % d2 * d1 := by
      have a1 : p1 * d2 = d1 * (p2 / d2) * d2 + p1 % d1 * d2 := by
        conv_lhs => rw [← e1, hEq]
        ring
      have a2 : p2 * d1 = d1 * (p2 / d2) * d2 + p2 % d2 * d1 := by
        conv_lhs => rw [← e2]
        ring
      omega
    unfold roundGrid
    rw [hEq]
    by_cases u1 : d1 < 2 * (p1 % d1) ∨ (2 * (p1 % d1) = d1 ∧ (p2 / d2) % 2 = 1)
    · have u2 : d2 < 2 * (p2 % d2) ∨ (2 * (p2 % d2) = d2 ∧ (p2 / d2) % 2 = 1) := by
        rcases u1 with u | ⟨u, o⟩
        · left
          have : d1 * d2 < 2 * (p2 % d2) * d1 := by
            calc d1 * d2 < 2 * (p1 % d1) * d2 := Nat.mul_lt_mul_of_pos_right u h2
              _ = 2 * (p1 % d1 * d2) := by ring
              _ ≤ 2 * (p2 % d2 * d1) := Nat.mul_le_mul_left _ hr
              _ = 2 * (p2 % d2) * d1 := by ring
          rw [Nat.mul_comm d1 d2] at this
          exact Nat.lt_of_mul_lt_mul_right this
        · have : d2 * d1 ≤ 2 * (p2 % d2) * d1 := by
            calc d2 * d1 = 2 * (p1 % d1) * d2 := by rw [u]; ring
              _ = 2 * (p1 % d1 * d2) := by ring
              _ ≤ 2 * (p2 % d2 * d1) := Nat.mul_le_mul_left _ hr
              _ = 2 * (p2 % d2) * d1 := by ring
          have : d2 ≤ 2 * (p2 % d2) := Nat.le_of_mul_le_mul_right this h1
          rcases Nat.lt_or_ge d2 (2 * (p2 % d2)) with l | g
          · left; exact l
          · right; exact ⟨le_antisymm g this, o⟩
      rw [if_pos u1, if_pos u2]
    · rw [if_neg u1]
      split_ifs <;> omega

/-- A fraction that is at least the integer `c` rounds to at least `c`. -/
theorem le_roundGrid {p d c : Nat} (hd : 0 < d) (h : c * d ≤ p) : c ≤ roundGrid p d :=
  le_trans ((Nat.le_div_iff_mul_le hd).mpr h) (div_le_roundGrid p d)

/-- A fraction that is at most the integer `c` rounds to at most `c`. -/
theorem roundGrid_le {p d c : Nat} (hd : 0 < d) (h : p ≤ c * d) : roundGrid p d ≤ c := by
  have hc : roundGrid (c * d) d = c := by
    unfold roundGrid
    simp [Nat.mul_mod_left, Nat.mul_div_cancel _ hd]
    omega
  calc roundGrid p d ≤ roundGrid (c * d) d := roundGrid_mono hd hd (Nat.mul_le_mul_right _ h)
    _ = c := hc

/-- Rounding to 53 significant bits is monotone in the fraction `p / q`. -/
theorem roundUnits_mono {p1 q1 p2 q2 : Nat} (h1 : 0 < q1) (h2 : 0 < q2)
    (h : p1 * q2 ≤ p2 * q1) : roundUnits p1 q1 ≤ roundUnits p2 q2 := by
  have ht : p1 / q1 ≤ p2 / q2 := by
    rw [Nat.le_div_iff_mul_le h2]
    have : p1 / q1 * q1 ≤ p1 := Nat.div_mul_le_self p1 q1
    have : p1 / q1 * q2 * q1 ≤ p2 * q1 := by
      calc p1 / q1 * q2 * q1 = p1 / q1 * q1 * q2 := by ring
        _ ≤ p1 * q2 := Nat.mul_le_mul_right _ this
        _ ≤ p2 * q1 := h
    exact Nat.le_of_mul_le_mul_right this h1
  have hl : log2 (p1 / q1) ≤ log2 (p2 / q2) := log2_mono ht
  have hs : ulpShift p1 q1 ≤ ulpShift p2 q2 := by unfold ulpShift; omega
  unfold roundUnits
  rcases Nat.lt_or_ge (ulpShift p1 q1) (ulpShift p2 q2) with hlt | hge
  · -- different binades: the power of two between them separates the results
    set s1 := ulpShift p1 q1 with hs1
    set s2 := ulpShift p2 q2 with hs2
    set L := log2 (p2 / q2) with hL
    have hs2L : s2 + 52 = L := by unfold ulpShift at hs1 hs2; omega
    have hl1 : log2 (p1 / q1) + 1 ≤ L := by unfold ulpShift at hs1 hs2; omega
    have hs1L : s1 ≤ L := by omega
    have t2pos : 0 < p2 / q2 := by
      rcases Nat.eq_zero_or_pos (p2 / q2) with z | z
      · rw [z] at hL
        have : L = 0 := by rw [hL]; simp [log2, log2Aux]
        omega
      · exact z
    have lo : 2 ^ L * q2 ≤ p2 := by
      have := pow_log2_le t2pos
      calc 2 ^ L * q2 ≤ p2 / q2 * q2 := Nat.mul_le_mul_right _ this
        _ ≤ p2 := Nat.div_mul_le_self _ _
    have hi : p1 < 2 ^ L * q1 := by
      have a := lt_pow_log2_succ (p1 / q1)
      have b : 2 ^ (log2 (p1 / q1) + 1) ≤ 2 ^ L := Nat.pow_le_pow_right (by norm_num) hl1
      have c : p1 / q1 < 2 ^ L := lt_of_lt_of_le a b
      exact (Nat.div_lt_iff_lt_mul h1).mp c
    have g1 : 0 < q1 * 2 ^ s1 := Nat.mul_pos h1 (Nat.two_pow_pos _)
    have g2 : 0 < q2 * 2 ^ s2 := Nat.mul_pos h2 (Nat.two_pow_pos _)
    have up : roundGrid p1 (q1 * 2 ^ s1) ≤ 2 ^ (L - s1) := by
      apply roundGrid_le g1
      have : 2 ^ (L - s1) * (q1 * 2 ^ s1) = 2 ^ L * q1 := by
        rw [show 2 ^ L = 2 ^ (L - s1) * 2 ^ s1 by rw [← pow_add]; congr 1; omega]
        ring
      rw [this]; exact le_of_lt hi
    have dn : 2 ^ 52 ≤ roundGrid p2 (q2 * 2 ^ s2) := by
      apply le_roundGrid g2
      have : 2 ^ 52 * (q2 * 2 ^ s2) = 2 ^ L * q2 := by
        rw [← hs2L, pow_add]; ring
      rw [this]; exact lo
    calc roundGrid p1 (q1 * 2 ^ s1) * 2 ^ s1 ≤ 2 ^ (L - s1) * 2 ^ s1 := Nat.mul_le_mul_right _ up
      _ = 2 ^ L := by rw [← pow_add]; congr 1; omega
      _ = 2 ^ 52 * 2 ^ s2 := by rw [← hs2L, pow_add]; ring
      _ ≤ roundGrid p2 (q2 * 2 ^ s2) * 2 ^ s2 := Nat.mul_le_mul_right _ dn
  · have he : ulpShift p1 q1 = ulpShift p2 q2 := le_antisymm hs hge
    rw [he]
    apply Nat.mul_le_mul_right
    apply roundGrid_mono (Nat.mul_pos h1 (Nat.two_pow_pos _))
      (Nat.mul_pos h2 (Nat.two_pow_pos _))
    calc p1 * (q2 * 2 ^ ulpShift p2 q2) = p1 * q2 * 2 ^ ulpShift p2 q2 := by ring
      _ ≤ p2 * q1 * 2 ^ ulpShift p2 q2 := Nat.mul_le_mul_right _ h
      _ = p2 * (q1 * 2 ^ ulpShift p2 q2) := by ring

/-- A quotient of at least one unit does not round to zero. -/
theorem roundUnits_pos {p q : Nat} (hq : 0 < q) (h : q ≤ p) : 0 < roundUnits p q := by
  unfold roundUnits
  have tpos : 0 < p / q := Nat.div_pos h hq
  have gle : 2 ^ ulpShift p q ≤ p / q := by
    calc 2 ^ ulpShift p q ≤ 2 ^ log2 (p / q) := Nat.pow_le_pow_right (by norm_num) (by unfold ulpShift; omega)
      _ ≤ p / q := pow_log2_le tpos
  have : 1 ≤ roundGrid p (q * 2 ^ ulpShift p q) := by
    apply le_roundGrid (Nat.mul_pos hq (Nat.two_pow_pos _))
    calc 1 * (q * 2 ^ ulpShift p q) = 2 ^ ulpShift p q * q := by ring
      _ ≤ p / q * q := Nat.mul_le_mul_right _ gle
      _ ≤ p := Nat.div_mul_le_self _ _
  exact Nat.mul_pos this (Nat.two_pow_pos _)


/-- Rounding to the grid is to nearest: the result is within half a step of `p / d`. -/
theorem roundGrid_nearest (p : Nat) {d : Nat} (hd : 0 < d) :
    2 * (roundGrid p d * d - p) ≤ d ∧ 2 * (p - roundGrid p d * d) ≤ d := by
  have e := Nat.div_add_mod p d
  have hr := Nat.mod_lt p hd
  have hm : p / d * d = d * (p / d) := Nat.mul_comm _ _
  unfold roundGrid
  split_ifs with h
  · rw [Nat.add_mul, hm]
    rcases h with h | ⟨h, -⟩ <;> omega
  · rw [hm]
    have : ¬ d < 2 * (p % d) := fun c => h (Or.inl c)
    omega

/-- The quotient kept by `roundUnits` has at most 53 bits before rounding. -/
theorem div_ulp_lt (p q : Nat) : p / (q * 2 ^ ulpShift p q) < 2 ^ 53 := by
  rw [← Nat.div_div_eq_div_mul]
  apply Nat.div_lt_of_lt_mul
  have a := lt_pow_log2_succ (p / q)
  have b : 2 ^ (log2 (p / q) + 1) ≤ 2 ^ (ulpShift p q + 53) :=
    Nat.pow_le_pow_right (by norm_num) (by unfold ulpShift; omega)
  calc p / q < 2 ^ (ulpShift p q + 53) := lt_of_lt_of_le a b
    _ = 2 ^ ulpShift p q * 2 ^ 53 := pow_add 2 _ _

/-- A rounded magnitude has at most 53 significant bits. -/
theorem roundUnits_bits (p q : Nat) :
    roundUnits p q % 2 ^ (log2 (roundUnits p q) - 52) = 0 := by
  have hn := div_ulp_lt p q
  have hN : roundGrid p (q * 2 ^ ulpShift p q) ≤ 2 ^ 53 :=
    le_trans (roundGrid_le_succ _ _) hn
  unfold roundUnits
  set s := ulpShift p q with hs
  set N := roundGrid p (q * 2 ^ s) with hNdef
  apply Nat.mod_eq_zero_of_dvd
  rcases Nat.eq_zero_or_pos N with h0 | hpos
  · rw [h0]; simp
  rcases Nat.lt_or_ge N (2 ^ 53) with hlt | hge
  · have hR : N * 2 ^ s < 2 ^ (53 + s) := by
      rw [pow_add]
      exact Nat.mul_lt_mul_of_pos_right hlt (Nat.two_pow_pos _)
    have hl : log2 (N * 2 ^ s) < 53 + s := by
      rw [log2_eq_log]
      exact Nat.log_lt_of_lt_pow (Nat.ne_of_gt (Nat.mul_pos hpos (Nat.two_pow_pos _))) hR
    exact Dvd.dvd.trans (pow_dvd_pow 2 (by omega)) (Dvd.intro_left N rfl)
  · have hEq : N = 2 ^ 53 := le_antisymm hN hge
    rw [hEq, ← pow_add]
    have hl : log2 (2 ^ (53 + s)) = 53 + s := by
      rw [log2_eq_log]; exact Nat.log_pow (by norm_num) _
    rw [hl]
    exact pow_dvd_pow 2 (by omega)

/-- The quotient of two doubles is a double. -/
theorem div_isBinary64 (a b : Double) : IsBinary64 (div a b) := by
  cases a <;> cases b <;> simp only [div, IsBinary64]
  case fin.inf => exact ⟨overflowUnits_pos, by simp⟩
  case fin.fin na x nb y =>
    by_cases hy : y = 0
    · by_cases hx : x = 0 <;> simp [hy, hx, IsBinary64]
    · simp only [hy, if_false]
      unfold ofUnits
      by_cases hlt : roundUnits (x * oneUnits) y < overflowUnits
      · rw [if_pos hlt]
        exact ⟨hlt, roundUnits_bits _ _⟩
      · rw [if_neg hlt]
        trivial

/-- The finite quotient is the exact quotient rounded to nearest: it is within half a
unit of the last place of `x / y`. -/
theorem roundUnits_nearest (p : Nat) {q : Nat} (hq : 0 < q) :
    2 * (roundUnits p q * q - p) ≤ q * 2 ^ ulpShift p q
      ∧ 2 * (p - roundUnits p q * q) ≤ q * 2 ^ ulpShift p q := by
  have h := roundGrid_nearest p (Nat.mul_pos hq (Nat.two_pow_pos (ulpShift p q)))
  unfold roundUnits
  have e : roundGrid p (q * 2 ^ ulpShift p q) * 2 ^ ulpShift p q * q
      = roundGrid p (q * 2 ^ ulpShift p q) * (q * 2 ^ ulpShift p q) := by ring
  rw [e]
  exact h

/-- The literal `0.1` is `0x1.999999999999ap-4`. -/
theorem ofRatio_tenth : ofRatio 1 10 = scaled 7205759403792794 56 := by
  decide!

/-- The literal `0.5` is `2^-1`. -/
theorem ofRatio_half : ofRatio 1 2 = scaled 1 1 := by
  decide!

/-- The quotient `1.0 / 3.0` is `0x1.5555555555555p-2`. -/
theorem ofRatio_third : ofRatio 1 3 = scaled 6004799503160661 54 := by
  decide!

end Double

/-! ## Comparison and the reciprocal -/

namespace Double

/-- A double above `0.0` is `+infinity` or a finite double of a positive magnitude. -/
theorem pos_cases {d : Double} (h : zero < d) :
    d = posInf ∨ ∃ k, 0 < k ∧ d = fin false k := by
  change lt zero d = true at h
  cases d with
  | nan => simp [lt, isNan] at h
  | inf neg =>
    cases neg
    · left; rfl
    · have := overflowUnits_pos
      simp [lt, isNan, rank, zero] at h
      omega
  | fin neg k =>
    cases neg
    · right
      refine ⟨k, ?_, rfl⟩
      simp [lt, isNan, rank, zero] at h
      exact h
    · simp [lt, isNan, rank, zero] at h
      omega

end Double

/-! ## The cost as a function of the distance -/

namespace TrajectoryAvoidance
open Double
variable {Host : Type}

/-- On a finite positive distance of `k` units the cost is the rounded reciprocal,
in units, capped at the units of `1000.0`. -/
theorem compute_cost_fin (self : TrajectoryAvoidance Host) {k : Nat} (hk : 0 < k) :
    (compute_cost self (fin false k)).1
      = fin false (min (roundUnits (1 * oneUnits * oneUnits) k) (1000 * oneUnits)) := by
  have hT : 1000 * oneUnits < overflowUnits := by decide!
  simp only [compute_cost, Double.ofNat, Double.div, Nat.ne_of_gt hk, if_false, Bool.xor_false]
  generalize roundUnits (1 * oneUnits * oneUnits) k = r
  generalize 1000 * oneUnits = t at hT ⊢
  unfold ofUnits Double.min lt
  by_cases h1 : r < overflowUnits
  · simp only [h1, if_true, isNan, rank]
    by_cases h2 : t < r
    · simp [h2]; omega
    · simp [h2]; omega
  · simp only [h1, if_false, isNan, rank]
    simp [hT]
    omega

/-- The cost of the distance `+infinity` is `0.0`. -/
theorem compute_cost_posInf (self : TrajectoryAvoidance Host) :
    (compute_cost self posInf).1 = zero := by
  simp [compute_cost, Double.ofNat, Double.div, posInf, Double.min, lt, isNan, rank, zero]

end TrajectoryAvoidance

namespace Double

/-- The rounded reciprocal does not increase with the magnitude. -/
theorem recip_antitone {k1 k2 : Nat} (h1 : 0 < k1) (h : k1 ≤ k2) :
    roundUnits (1 * oneUnits * oneUnits) k2 ≤ roundUnits (1 * oneUnits * oneUnits) k1 :=
  roundUnits_mono (lt_of_lt_of_le h1 h) h1 (Nat.mul_le_mul_left _ h)

/-- The reciprocal of a finite positive double does not underflow to zero. -/
theorem recip_pos {k : Nat} (hk : 0 < k) (hlt : k < overflowUnits) :
    0 < roundUnits (1 * oneUnits * oneUnits) k := by
  have : overflowUnits ≤ 1 * oneUnits * oneUnits := by decide!
  exact roundUnits_pos hk (by omega)

/-- The units of the double `0.001`, the quotient `1.0 / 1000.0`. -/
theorem ofRatio_milli : ofRatio 1 1000 = fin false milliUnits := by
  decide!

/-- No double lies strictly between `m * 2^e` and `(m + 1) * 2^e` when `m` has 53 bits. -/
theorem next_after {m e k a b : Nat} (hm : 2 ^ 52 ≤ m) (h0 : a = 2 ^ e * m)
    (h1 : b = 2 ^ e * (m + 1)) (hb : IsBinary64 (fin false k)) (h : a < k) : b ≤ k := by
  obtain ⟨-, hmod⟩ := hb
  subst h0 h1
  have hp : 2 ^ (e + 52) ≤ 2 ^ e * m := by
    rw [pow_add]
    exact Nat.mul_le_mul_left _ hm
  have hlog : e + 52 ≤ log2 k := by
    by_contra hc
    have a := lt_pow_log2_succ k
    have b : 2 ^ (log2 k + 1) ≤ 2 ^ (e + 52) := Nat.pow_le_pow_right (by norm_num) (by omega)
    omega
  have hdvd : 2 ^ e ∣ k :=
    Dvd.dvd.trans (pow_dvd_pow 2 (by omega)) (Nat.dvd_of_mod_eq_zero hmod)
  obtain ⟨j, rfl⟩ := hdvd
  have hj : m < j := Nat.lt_of_mul_lt_mul_left h
  exact Nat.mul_le_mul_left _ hj

/-- The rounded reciprocal of a double reaches `1000.0` exactly up to the double `0.001`. -/
theorem recip_ge_thousand_iff {k : Nat} (hb : IsBinary64 (fin false k)) (hk : 0 < k) :
    1000 * oneUnits ≤ roundUnits (1 * oneUnits * oneUnits) k ↔ k ≤ milliUnits := by
  constructor
  · intro h
    by_contra hc
    have hn : milliNextUnits ≤ k :=
      next_after (m := 4611686018427388) (e := 1012) (a := milliUnits) (by norm_num)
        (by decide!) (by decide!)
        hb (by omega)
    have hp : 0 < milliNextUnits := by decide!
    have hm := recip_antitone hp hn
    have hv : roundUnits (1 * oneUnits * oneUnits) milliNextUnits < 1000 * oneUnits := by
      decide!
    omega
  · intro h
    have hm := recip_antitone hk h
    have hv : 1000 * oneUnits ≤ roundUnits (1 * oneUnits * oneUnits) milliUnits := by
      decide!
    omega

/-- Comparison `<=` of two non-negative finite doubles is comparison of their units. -/
theorem le_fin_iff {a b : Nat} : (fin false a ≤ fin false b) ↔ a ≤ b := by
  change le (fin false a) (fin false b) = true ↔ _
  simp [le, isNan, rank]

/-- Comparison `<` of two non-negative finite doubles is comparison of their units. -/
theorem lt_fin_iff {a b : Nat} : (fin false a < fin false b) ↔ a < b := by
  change lt (fin false a) (fin false b) = true ↔ _
  simp [lt, isNan, rank]

end Double

namespace TrajectoryAvoidance
open Double
variable {Host : Type}

/-- The cost of the distance `-0.0` is `-infinity`: the sign of a zero divisor is kept by
the division, and `std::min` returns the smaller operand. -/
theorem compute_cost_neg_zero (self : TrajectoryAvoidance Host) :
    (compute_cost self (fin true 0)).1 = inf true := by
  show Double.min (Double.div (Double.ofNat 1) (fin true 0)) (Double.ofNat 1000) = inf true
  decide!

/-- The cost of a NaN distance is NaN: `1000.0 < NaN` is false, so `std::min` returns its
first operand. -/
theorem compute_cost_nan (self : TrajectoryAvoidance Host) :
    (compute_cost self nan).1 = nan := by
  show Double.min (Double.div (Double.ofNat 1) nan) (Double.ofNat 1000) = nan
  decide!

/-- The double `0.001` is slightly above the real number `1/1000` (a thousand times its
units exceed the units of `1.0`), and its cost is still `1000.0`. -/
theorem milli_above_exact (self : TrajectoryAvoidance Host) :
    oneUnits < 1000 * milliUnits
      ∧ (compute_cost self (ofRatio 1 1000)).1 = Double.ofNat 1000 := by
  refine ⟨by decide!, ?_⟩
  show Double.min (Double.div (Double.ofNat 1) (ofRatio 1 1000)) (Double.ofNat 1000)
    = Double.ofNat 1000
  decide!

/-- The cost does not increase with the distance. -/
theorem compute_cost_antitone (self : TrajectoryAvoidance Host) {d1 d2 : Double}
    (hb : IsBinary64 d2) (h0 : zero < d1) (h : d1 ≤ d2) :
    (compute_cost self d2).1 ≤ (compute_cost self d1).1 := by
  have h2 : zero < d2 := by
    change lt zero d2 = true
    change lt zero d1 = true at h0
    change le d1 d2 = true at h
    simp only [lt, le, Bool.and_eq_true, Bool.not_eq_true', decide_eq_true_eq] at *
    exact ⟨⟨h0.1.1, h.1.2⟩, lt_of_lt_of_le h0.2 h.2⟩
  rcases pos_cases h0 with rfl | ⟨k1, hk1, rfl⟩ <;> rcases pos_cases h2 with rfl | ⟨k2, hk2, rfl⟩
  · rw [compute_cost_posInf]; decide
  · exfalso
    have hlt := hb.1
    change le (inf false) (fin false k2) = true at h
    simp [le, isNan, rank] at h
    omega
  · rw [compute_cost_posInf, compute_cost_fin self hk1]
    exact le_fin_iff.mpr (Nat.zero_le _)
  · rw [compute_cost_fin self hk1, compute_cost_fin self hk2]
    have hk : k1 ≤ k2 := le_fin_iff.mp h
    have := recip_antitone hk1 hk
    exact le_fin_iff.mpr (by omega)

/-- A finite positive distance has a positive cost. -/
theorem compute_cost_pos (self : TrajectoryAvoidance Host) {k : Nat}
    (hb : IsBinary64 (fin false k)) (hk : 0 < k) :
    zero < (compute_cost self (fin false k)).1 := by
  rw [compute_cost_fin self hk]
  have := recip_pos hk hb.1
  have hT : 0 < 1000 * oneUnits := by decide!
  exact lt_fin_iff.mpr (by omega)

/-- The cost never exceeds `1000.0` on a positive distance. -/
theorem compute_cost_le_thousand (self : TrajectoryAvoidance Host) {d : Double}
    (h0 : zero < d) : (compute_cost self d).1 ≤ Double.ofNat 1000 := by
  rcases pos_cases h0 with rfl | ⟨k, hk, rfl⟩
  · rw [compute_cost_posInf]; decide!
  · rw [compute_cost_fin self hk]
    exact le_fin_iff.mpr (by omega)

/-- The cost is `1000.0` exactly up to the double `0.001`. -/
theorem compute_cost_eq_thousand_iff (self : TrajectoryAvoidance Host) {k : Nat}
    (hb : IsBinary64 (fin false k)) (hk : 0 < k) :
    (compute_cost self (fin false k)).1 = Double.ofNat 1000
      ↔ fin false k ≤ ofRatio 1 1000 := by
  rw [compute_cost_fin self hk, ofRatio_milli, le_fin_iff, ← recip_ge_thousand_iff hb hk]
  unfold Double.ofNat
  constructor
  · intro h
    injection h with _ h
    omega
  · intro h
    congr 1
    omega

end TrajectoryAvoidance

/-! ## The claims -/

namespace TrajectoryAvoidance
open Double
variable {Host : Type} {Pose : Type}

/-- C1 (counterexample): with clearance 0.5 and penalty 500 the distance `2^-10` lies in
`(0, clearance)`, its cost is `1000.0` and `min(1/d, collision_penalty)` is `500.0`. -/
theorem compute_cost_ceiling_not_penalty :
    zero < penalty500Evaluator.collision_clearance_
      ∧ zero < penalty500Evaluator.collision_penalty_
      ∧ zero < ofRatio 1 1024
      ∧ ofRatio 1 1024 < penalty500Evaluator.collision_clearance_
      ∧ (compute_cost penalty500Evaluator (ofRatio 1 1024)).1 = Double.ofNat 1000
      ∧ Double.min (Double.div (Double.ofNat 1) (ofRatio 1 1024))
          penalty500Evaluator.collision_penalty_ = Double.ofNat 500
      ∧ (compute_cost penalty500Evaluator (ofRatio 1 1024)).1
          ≠ Double.min (Double.div (Double.ofNat 1) (ofRatio 1 1024))
              penalty500Evaluator.collision_penalty_ := by
  decide!

/-- C1 (amended): for every clearance > 0, penalty > 0 and double `d` with
`0 < d < clearance`, the cost of `d` is `min(1/d, 1000.0)`: it never exceeds the constant
`1000.0`, it is `1000.0` whenever `d ≤ 0.001` whatever the configured penalty, and it is
`min(1/d, collision_penalty)` when the penalty is configured as 1000. -/
theorem compute_cost_eq_min_thousand (self : TrajectoryAvoidance Host) (d : Double)
    (hb : IsBinary64 d) (_hc : zero < self.collision_clearance_)
    (_hp : zero < self.collision_penalty_) (h0 : zero < d)
    (_h1 : d < self.collision_clearance_) :
    (compute_cost self d).1 = Double.min (Double.div (Double.ofNat 1) d) (Double.ofNat 1000)
      ∧ (compute_cost self d).1 ≤ Double.ofNat 1000
      ∧ (d ≤ ofRatio 1 1000 → (compute_cost self d).1 = Double.ofNat 1000)
      ∧ (self.collision_penalty_ = Double.ofNat 1000 →
          (compute_cost self d).1
            = Double.min (Double.div (Double.ofNat 1) d) self.collision_penalty_) := by
  refine ⟨rfl, compute_cost_le_thousand self h0, ?_, ?_⟩
  · intro hle
    rcases pos_cases h0 with rfl | ⟨k, hk, rfl⟩
    · exact absurd hle (by decide!)
    · exact (compute_cost_eq_thousand_iff self hb hk).mpr hle
  · intro hpen
    rw [hpen]
    rfl

/-- C1 (witness): the amended statement at clearance 0.5, penalty 500 and `d = 2^-10`. -/
theorem compute_cost_eq_min_thousand_witness :
    zero < penalty500Evaluator.collision_clearance_
      ∧ zero < penalty500Evaluator.collision_penalty_
      ∧ zero < ofRatio 1 1024
      ∧ ofRatio 1 1024 < penalty500Evaluator.collision_clearance_
      ∧ (compute_cost penalty500Evaluator (ofRatio 1 1024)).1
          = Double.min (Double.div (Double.ofNat 1) (ofRatio 1 1024)) (Double.ofNat 1000)
      ∧ (compute_cost penalty500Evaluator (ofRatio 1 1024)).1 ≤ Double.ofNat 1000
      ∧ (compute_cost penalty500Evaluator (ofRatio 1 1024)).1 = Double.ofNat 1000 :=
  ⟨by decide!, by decide!, by decide!, by decide!,
    (compute_cost_eq_min_thousand penalty500Evaluator (ofRatio 1 1024)
      (by decide!) (by decide!) (by decide!) (by decide!) (by decide!)).1,
    (compute_cost_eq_min_thousand penalty500Evaluator (ofRatio 1 1024)
      (by decide!) (by decide!) (by decide!) (by decide!) (by decide!)).2.1,
    (compute_cost_eq_min_thousand penalty500Evaluator (ofRatio 1 1024)
      (by decide!) (by decide!) (by decide!) (by decide!) (by decide!)).2.2.1 (by decide!)⟩

/-- The helper alone has no clearance gate: with clearance 0.5 its value at the distance
0.5 is `2.0`. The gate of the specification belongs to `computeCosts` (`shape_cost`). -/
theorem compute_cost_at_clearance :
    scenarioEvaluator.collision_clearance_ = ofRatio 1 2
      ∧ (compute_cost scenarioEvaluator (ofRatio 1 2)).1 = Double.ofNat 2 := by
  decide!

/-- C2: for every distance `d >= collision_clearance`, boundary included, the cost that
the scoring assigns to `d` is `0.0`; and a call of `computeCosts` whose scored time steps
are all at such a distance from the stored poses returns the cost `0.0` for each of them,
with validity true. -/
theorem shape_cost_zero_of_clearance_le {Column : Type} (self : TrajectoryAvoidance Host)
    (d : Double) (h : self.collision_clearance_ ≤ d) :
    shape_cost self d = zero
      ∧ shape_cost self self.collision_clearance_ = zero
      ∧ ∀ (fk : Column → Pose) (dist : Pose → Pose → Double)
          (accepted_trajectories : List (List Pose)) (parameters : List Column)
          (iteration_number rollout_number : Int),
          (∀ column ∈ parameters,
              nearest_distance dist accepted_trajectories (fk column) = d) →
            (computeCosts fk dist self accepted_trajectories parameters 0 parameters.length
                iteration_number rollout_number).1
              = some (List.replicate parameters.length zero, true) := by
  have h1 : shape_cost self d = zero := by
    unfold shape_cost
    rw [if_pos h]
  have hrefl : self.collision_clearance_ ≤ self.collision_clearance_ := by
    change le self.collision_clearance_ d = true at h
    change le self.collision_clearance_ self.collision_clearance_ = true
    simp only [le, Bool.and_eq_true, Bool.not_eq_true', decide_eq_true_eq] at *
    exact ⟨⟨h.1.1, h.1.1⟩, le_refl _⟩
  refine ⟨h1, ?_, ?_⟩
  · unfold shape_cost
    rw [if_pos hrefl]
  · intro fk dist accepted_trajectories parameters iteration_number rollout_number hall
    unfold computeCosts
    rw [if_pos (by omega)]
    simp only [List.drop_zero, List.take_length]
    congr 2
    rw [List.eq_replicate_iff]
    refine ⟨by simp, ?_⟩
    intro c hc
    obtain ⟨column, hmem, rfl⟩ := List.mem_map.mp hc
    rw [hall column hmem]
    exact h1

/-- C2 (witness): Scenario C. With clearance 0.5, a candidate whose two scored time steps
are at distance exactly 0.5 from the single stored pose gets the costs `0.0, 0.0`. -/
theorem shape_cost_zero_of_clearance_le_witness :
    scenarioEvaluator.collision_clearance_ ≤ ofRatio 1 2
      ∧ shape_cost scenarioEvaluator (ofRatio 1 2) = zero
      ∧ (computeCosts (fun column : Nat => column) (fun _ _ => ofRatio 1 2)
            scenarioEvaluator [[0]] [1, 2] 0 2 0 0).1
          = some ([zero, zero], true) :=
  ⟨by decide!,
    (@shape_cost_zero_of_clearance_le Unit Nat Nat scenarioEvaluator (ofRatio 1 2)
      (by decide!)).1,
    (@shape_cost_zero_of_clearance_le Unit Nat Nat scenarioEvaluator (ofRatio 1 2)
      (by decide!)).2.2
      (fun column : Nat => column) (fun _ _ => ofRatio 1 2) [[0]] [1, 2] 0 0
      (by
        intro column _
        show Double.min (ofRatio 1 2) posInf = ofRatio 1 2
        decide!)⟩

/-- C3 (counterexample): with the penalty configured as 500 the cost of distance `0.0` is
`1000.0`, which is not `collision_penalty`. -/
theorem compute_cost_zero_not_penalty :
    penalty500Evaluator.collision_penalty_ = Double.ofNat 500
      ∧ (compute_cost penalty500Evaluator zero).1 = Double.ofNat 1000
      ∧ (compute_cost penalty500Evaluator zero).1 ≠ penalty500Evaluator.collision_penalty_ := by
  decide!

/-- C3 (amended): for every evaluator the division `1.0 / 0.0` yields `+infinity` (no
error), and the cost of distance `0.0` is the finite double `1000.0`: not an infinity,
not NaN; it is `collision_penalty` when the penalty is configured as 1000 (Scenario D). -/
theorem compute_cost_zero (self : TrajectoryAvoidance Host) :
    Double.div (Double.ofNat 1) zero = posInf
      ∧ (compute_cost self zero).1 = Double.ofNat 1000
      ∧ (compute_cost self zero).1.isFinite = true
      ∧ (compute_cost self zero).1.isNan = false
      ∧ IsBinary64 (compute_cost self zero).1
      ∧ (self.collision_penalty_ = Double.ofNat 1000 →
          (compute_cost self zero).1 = self.collision_penalty_) := by
  have h : (compute_cost self zero).1 = Double.ofNat 1000 := by
    show Double.min (Double.div (Double.ofNat 1) zero) (Double.ofNat 1000) = Double.ofNat 1000
    decide!
  refine ⟨by decide!, h, ?_, ?_, ?_, ?_⟩
  · rw [h]; rfl
  · rw [h]; rfl
  · rw [h]; decide!
  · intro hp; rw [h, hp]

/-- C4 (counterexample): with clearance 0.5 the distances `2^-12 < 2^-11` lie in
`(0, clearance)` and both cost `1000.0`, so the cost did not decrease. -/
theorem compute_cost_not_strict_on_interval :
    zero < ofRatio 1 4096
      ∧ ofRatio 1 4096 < ofRatio 1 2048
      ∧ ofRatio 1 2048 < scenarioEvaluator.collision_clearance_
      ∧ (compute_cost scenarioEvaluator (ofRatio 1 4096)).1 = Double.ofNat 1000
      ∧ (compute_cost scenarioEvaluator (ofRatio 1 2048)).1 = Double.ofNat 1000
      ∧ ¬ ((compute_cost scenarioEvaluator (ofRatio 1 2048)).1
            < (compute_cost scenarioEvaluator (ofRatio 1 4096)).1) := by
  decide!

/-- C4 (amended): the cost is non-increasing in the distance on `(0, clearance)`: for all
doubles `d1`, `d2` with `0 < d1 < d2 < clearance`, the cost of `d2` is at most the cost of
`d1`. -/
theorem compute_cost_antitone_on_interval (self : TrajectoryAvoidance Host) (d1 d2 : Double)
    (_hb1 : IsBinary64 d1) (hb2 : IsBinary64 d2) (h0 : zero < d1) (h12 : d1 < d2)
    (_h2 : d2 < self.collision_clearance_) :
    (compute_cost self d2).1 ≤ (compute_cost self d1).1 := by
  apply compute_cost_antitone self hb2 h0
  change le d1 d2 = true
  change lt d1 d2 = true at h12
  simp only [lt, le, Bool.and_eq_true, Bool.not_eq_true', decide_eq_true_eq] at *
  exact ⟨h12.1, le_of_lt h12.2⟩

/-- C4 (witness): the amended statement at clearance 0.5, `d1 = 0.1` and `d2 = 0.25`. -/
theorem compute_cost_antitone_on_interval_witness :
    zero < ofRatio 1 10 ∧ ofRatio 1 10 < ofRatio 1 4
      ∧ ofRatio 1 4 < scenarioEvaluator.collision_clearance_
      ∧ (compute_cost scenarioEvaluator (ofRatio 1 4)).1
          ≤ (compute_cost scenarioEvaluator (ofRatio 1 10)).1 :=
  ⟨by decide!, by decide!, by decide!,
    compute_cost_antitone_on_interval scenarioEvaluator (ofRatio 1 10) (ofRatio 1 4)
      (by decide!) (by decide!) (by decide!) (by decide!) (by decide!)⟩

/-- C5: Scenario B. With clearance 0.5 and penalty 1000, the cost of the distance `0.1`
is exactly `10.0`. -/
theorem compute_cost_scenario_b (self : TrajectoryAvoidance Host)
    (_hc : self.collision_clearance_ = ofRatio 1 2)
    (_hp : self.collision_penalty_ = Double.ofNat 1000) :
    (compute_cost self (ofRatio 1 10)).1 = Double.ofNat 10 := by
  show Double.min (Double.div (Double.ofNat 1) (ofRatio 1 10)) (Double.ofNat 1000)
    = Double.ofNat 10
  decide!

/-- C5 (witness): Scenario B at the scenario's evaluator. -/
theorem compute_cost_scenario_b_witness :
    scenarioEvaluator.collision_clearance_ = ofRatio 1 2
      ∧ scenarioEvaluator.collision_penalty_ = Double.ofNat 1000
      ∧ (compute_cost scenarioEvaluator (ofRatio 1 10)).1 = Double.ofNat 10 :=
  ⟨rfl, rfl, compute_cost_scenario_b scenarioEvaluator rfl rfl⟩

/-- C6: `getGroupName` returns the stored group name, `getName` returns the stored name,
then "/", then the stored group name; neither changes the evaluator, and a second call
returns the same string. -/
theorem accessors_pure (self : TrajectoryAvoidance Host) :
    (getGroupName self).1 = self.group_name_
      ∧ (getGroupName self).2 = self
      ∧ (getName self).1 = self.name_ ++ "/" ++ self.group_name_
      ∧ (getName self).2 = self
      ∧ (getGroupName (getGroupName self).2).1 = (getGroupName self).1
      ∧ (getName (getName self).2).1 = (getName self).1
      ∧ (getName (getGroupName self).2).1 = (getName self).1
      ∧ (getGroupName (getName self).2).1 = (getGroupName self).1 :=
  ⟨rfl, rfl, rfl, rfl, rfl, rfl, rfl, rfl⟩

/-- C7: starting from an empty repository, after the `add_trajectory` calls for any list
of trajectories (duplicates allowed) the repository holds exactly as many trajectories as
there were calls, and an `add_trajectory` leaves every stored trajectory as it was. -/
theorem add_trajectory_monotonic (added : List (List Pose)) :
    (added.foldl add_trajectory []).length = added.length
      ∧ added.foldl add_trajectory [] = added
      ∧ ∀ (repository : List (List Pose)) (trajectory : List Pose) (i : Nat),
          i < repository.length →
            (add_trajectory repository trajectory)[i]? = repository[i]?
              ∧ (add_trajectory repository trajectory).length = repository.length + 1 := by
  have key : ∀ (ts repo : List (List Pose)), ts.foldl add_trajectory repo = repo ++ ts := by
    intro ts
    induction ts with
    | nil => intro repo; simp
    | cons t ts ih => intro repo; simp [List.foldl, ih, add_trajectory]
  refine ⟨?_, ?_, ?_⟩
  · rw [key]; simp
  · rw [key]; simp
  · intro repository trajectory i hi
    unfold add_trajectory
    constructor
    · exact List.getElem?_append_left hi
    · simp

/-- C8: scoring is deterministic. A call of `computeCosts` leaves the evaluator as it was,
so a second call with the same parameters, range and repository returns the same costs;
the result does not depend on the iteration or rollout number, and of the evaluator only
`collision_clearance_` matters: two evaluators with the same clearance return the same
costs. In particular the value of `compute_cost` depends on the distance only. -/
theorem computeCosts_deterministic {Column : Type} (fk : Column → Pose)
    (dist : Pose → Pose → Double) (self other : TrajectoryAvoidance Host)
    (accepted_trajectories : List (List Pose)) (parameters : List Column)
    (start_timestep num_timesteps : Nat) (i1 r1 i2 r2 : Int) (d : Double) :
    (computeCosts fk dist self accepted_trajectories parameters start_timestep
        num_timesteps i1 r1).2 = self
      ∧ (computeCosts fk dist
            (computeCosts fk dist self accepted_trajectories parameters start_timestep
              num_timesteps i1 r1).2
            accepted_trajectories parameters start_timestep num_timesteps i2 r2).1
          = (computeCosts fk dist self accepted_trajectories parameters start_timestep
              num_timesteps i1 r1).1
      ∧ (other.collision_clearance_ = self.collision_clearance_ →
          (computeCosts fk dist other accepted_trajectories parameters start_timestep
              num_timesteps i2 r2).1
            = (computeCosts fk dist self accepted_trajectories parameters start_timestep
                num_timesteps i1 r1).1)
      ∧ (compute_cost other d).1 = (compute_cost self d).1
      ∧ (compute_cost self d).2 = self := by
  have hstate : (computeCosts fk dist self accepted_trajectories parameters start_timestep
      num_timesteps i1 r1).2 = self := by
    unfold computeCosts
    split_ifs <;> rfl
  have hshape : ∀ (a b : TrajectoryAvoidance Host),
      a.collision_clearance_ = b.collision_clearance_ → shape_cost a = shape_cost b := by
    intro a b hab
    funext x
    unfold shape_cost
    rw [hab]
    rfl
  have hcfg : ∀ (a b : TrajectoryAvoidance Host) (ia ra ib rb : Int),
      a.collision_clearance_ = b.collision_clearance_ →
        (computeCosts fk dist a accepted_trajectories parameters start_timestep
            num_timesteps ia ra).1
          = (computeCosts fk dist b accepted_trajectories parameters start_timestep
              num_timesteps ib rb).1 := by
    intro a b ia ra ib rb hab
    unfold computeCosts
    rw [hshape a b hab]
    split_ifs <;> rfl
  refine ⟨hstate, ?_, ?_, rfl, rfl⟩
  · rw [hstate]
    exact hcfg self self i2 r2 i1 r1 rfl
  · intro hc
    exact hcfg other self i2 r2 i1 r1 hc

/-- C8 (witness): the evaluators with penalty 1000 and penalty 500 have the same clearance
and return the same costs for the same candidate and repository, whatever the iteration
and rollout numbers. -/
theorem computeCosts_deterministic_witness :
    penalty500Evaluator.collision_clearance_ = scenarioEvaluator.collision_clearance_
      ∧ (computeCosts (fun column : Nat => column) (fun _ _ => ofRatio 1 10)
            penalty500Evaluator [[0]] [1, 2, 3] 1 2 7 3).1
          = (computeCosts (fun column : Nat => column) (fun _ _ => ofRatio 1 10)
              scenarioEvaluator [[0]] [1, 2, 3] 1 2 0 0).1 :=
  ⟨rfl,
    (computeCosts_deterministic (fun column : Nat => column) (fun _ _ => ofRatio 1 10)
      scenarioEvaluator penalty500Evaluator [[0]] [1, 2, 3] 1 2 0 0 7 3 zero).2.2.1 rfl⟩

/-- C9 (counterexample): `+infinity` is a distance above 0 whose cost is `0.0`, which is
not strictly positive. -/
theorem compute_cost_posInf_not_positive :
    zero < posInf
      ∧ (compute_cost scenarioEvaluator posInf).1 = zero
      ∧ ¬ (zero < (compute_cost scenarioEvaluator posInf).1) := by
  decide!

/-- C9 (amended): for every finite double `d > 0` the cost of `d` is strictly positive and
at most `1000.0`, and it equals `1000.0` exactly when `d ≤ 0.001` (the double
`1.0 / 1000.0`); the cost is the same on every evaluator, whatever its
`collision_clearance_` and `collision_penalty_`. -/
theorem compute_cost_bounds (self other : TrajectoryAvoidance Host) (d : Double)
    (hb : IsBinary64 d) (h0 : zero < d) (hfin : d < posInf) :
    zero < (compute_cost self d).1
      ∧ (compute_cost self d).1 ≤ Double.ofNat 1000
      ∧ ((compute_cost self d).1 = Double.ofNat 1000 ↔ d ≤ ofRatio 1 1000)
      ∧ (compute_cost other d).1 = (compute_cost self d).1 := by
  rcases pos_cases h0 with rfl | ⟨k, hk, rfl⟩
  · exact absurd hfin (by decide!)
  · exact ⟨compute_cost_pos self hb hk, compute_cost_le_thousand self h0,
      compute_cost_eq_thousand_iff self hb hk, rfl⟩

/-- C9 (witness): the amended statement at `d = 0.1`, on the evaluators with penalty 1000
and penalty 500. -/
theorem compute_cost_bounds_witness :
    zero < ofRatio 1 10 ∧ ofRatio 1 10 < posInf
      ∧ zero < (compute_cost scenarioEvaluator (ofRatio 1 10)).1
      ∧ (compute_cost scenarioEvaluator (ofRatio 1 10)).1 ≤ Double.ofNat 1000
      ∧ ((compute_cost scenarioEvaluator (ofRatio 1 10)).1 = Double.ofNat 1000
          ↔ ofRatio 1 10 ≤ ofRatio 1 1000)
      ∧ (compute_cost penalty500Evaluator (ofRatio 1 10)).1
          = (compute_cost scenarioEvaluator (ofRatio 1 10)).1 :=
  ⟨by decide!, by decide!,
    compute_cost_bounds scenarioEvaluator penalty500Evaluator (ofRatio 1 10)
      (by decide!) (by decide!) (by decide!)⟩

/-- C10 (counterexample): the adjacent doubles `2 - 2^-51 < 2 - 2^-52` are both past the
saturation point `0.001` and have the same cost `0.5 + 2^-53`: the rounded reciprocals
coincide, so the cost did not strictly decrease. -/
theorem compute_cost_not_strict_past_saturation :
    IsBinary64 (scaled 9007199254740990 52) ∧ IsBinary64 (scaled 9007199254740991 52)
      ∧ ofRatio 1 1000 ≤ scaled 9007199254740990 52
      ∧ scaled 9007199254740990 52 < scaled 9007199254740991 52
      ∧ (compute_cost scenarioEvaluator (scaled 9007199254740990 52)).1
          = scaled 4503599627370497 53
      ∧ (compute_cost scenarioEvaluator (scaled 9007199254740991 52)).1
          = scaled 4503599627370497 53
      ∧ ¬ ((compute_cost scenarioEvaluator (scaled 9007199254740991 52)).1
            < (compute_cost scenarioEvaluator (scaled 9007199254740990 52)).1) := by
  decide!

/-- C10 (amended): the cost is non-increasing on positive distances: for all doubles
`0 < d1 ≤ d2` the cost of `d2` is at most the cost of `d1`; and it drops strictly across
the saturation point: when `d1 ≤ 0.001 < d2` the cost of `d2` is strictly below that of
`d1`. -/
theorem compute_cost_non_increasing (self : TrajectoryAvoidance Host) (d1 d2 : Double)
    (hb1 : IsBinary64 d1) (hb2 : IsBinary64 d2) (h0 : zero < d1) (h12 : d1 ≤ d2) :
    (compute_cost self d2).1 ≤ (compute_cost self d1).1
      ∧ (d1 ≤ ofRatio 1 1000 → ofRatio 1 1000 < d2 →
          (compute_cost self d2).1 < (compute_cost self d1).1) := by
  refine ⟨compute_cost_antitone self hb2 h0 h12, ?_⟩
  intro hle hgt
  have h2 : zero < d2 := by
    change lt zero d2 = true
    change lt zero d1 = true at h0
    change le d1 d2 = true at h12
    simp only [lt, le, Bool.and_eq_true, Bool.not_eq_true', decide_eq_true_eq] at *
    exact ⟨⟨h0.1.1, h12.1.2⟩, lt_of_lt_of_le h0.2 h12.2⟩
  have c1 : (compute_cost self d1).1 = Double.ofNat 1000 := by
    rcases pos_cases h0 with rfl | ⟨k1, hk1, rfl⟩
    · exact absurd hle (by decide!)
    · exact (compute_cost_eq_thousand_iff self hb1 hk1).mpr hle
  rw [c1]
  rcases pos_cases h2 with rfl | ⟨k2, hk2, rfl⟩
  · rw [compute_cost_posInf]; decide!
  · have hne : (compute_cost self (fin false k2)).1 ≠ Double.ofNat 1000 := by
      intro he
      have := (compute_cost_eq_thousand_iff self hb2 hk2).mp he
      rw [ofRatio_milli] at this hgt
      have a := le_fin_iff.mp this
      have b := lt_fin_iff.mp hgt
      omega
    rw [compute_cost_fin self hk2] at hne ⊢
    unfold Double.ofNat at hne ⊢
    apply lt_fin_iff.mpr
    have : min (roundUnits (1 * oneUnits * oneUnits) k2) (1000 * oneUnits) ≠ 1000 * oneUnits := by
      intro he
      exact hne (by rw [he])
    omega

/-- C10 (witness): the amended statement at `d1 = 2^-10` and `d2 = 1.0`, which lie on the
two sides of the saturation point. -/
theorem compute_cost_non_increasing_witness :
    zero < ofRatio 1 1024 ∧ ofRatio 1 1024 ≤ Double.ofNat 1
      ∧ ofRatio 1 1024 ≤ ofRatio 1 1000 ∧ ofRatio 1 1000 < Double.ofNat 1
      ∧ (compute_cost scenarioEvaluator (Double.ofNat 1)).1
          ≤ (compute_cost scenarioEvaluator (ofRatio 1 1024)).1
      ∧ (compute_cost scenarioEvaluator (Double.ofNat 1)).1
          < (compute_cost scenarioEvaluator (ofRatio 1 1024)).1 :=
  ⟨by decide!, by decide!, by decide!, by decide!,
    (compute_cost_non_increasing scenarioEvaluator (ofRatio 1 1024) (Double.ofNat 1)
      (by decide!) (by decide!) (by decide!) (by decide!)).1,
    (compute_cost_non_increasing scenarioEvaluator (ofRatio 1 1024) (Double.ofNat 1)
      (by decide!) (by decide!) (by decide!) (by decide!)).2 (by decide!) (by decide!)⟩

end TrajectoryAvoidance
